import Mathlib

/-!
Verification of the Clifs 8-track recorder against its specification.

The definitions below are a shallow embedding of the Python sources
(`audio_engine.py`, `track_manager.py`, `project_manager.py`): pure numeric
code is translated to `ℚ`/`ℤ`/`ℕ` functions, dictionaries keyed by track
number become `ℕ → Option _` maps, and the mutating methods become explicit
state-passing functions.  Each definition carries a comment naming the
Python symbol it embeds.
-/

namespace Clifs

/-! ### SimpleCompressor (audio_engine.py lines 15-59) -/

/-- Makeup gain from `SimpleCompressor.process`:
`makeup_gain = 1.0 + (1.0 - 1.0/self.ratio) * (self.threshold / 1.0)`. -/
def compMakeupGain (threshold ratio : ℚ) : ℚ :=
  1 + (1 - 1 / ratio) * (threshold / 1)

/-- Envelope follower update from `SimpleCompressor.process`: the attack
coefficient is used while the envelope rises toward the instantaneous level,
the release coefficient while it falls. -/
def compEnvelope (attack_coeff release_coeff env lvl : ℚ) : ℚ :=
  if env < lvl then env + (lvl - env) * (1 - attack_coeff)
  else env + (lvl - env) * (1 - release_coeff)

/-- Gain computation from `SimpleCompressor.process`: gain is 1 unless the
envelope exceeds the threshold, in which case
`gain = (threshold + (envelope - threshold)/ratio) / envelope` (guarded by
`envelope > 0`). -/
def compGain (threshold ratio env : ℚ) : ℚ :=
  if threshold < env then
    if 0 < env then (threshold + (env - threshold) / ratio) / env else 1
  else 1

/-- One iteration of the loop in `SimpleCompressor.process`: returns the new
envelope and the output sample `audio[i] * gain * makeup_gain`. -/
def compStep (threshold ratio attack_coeff release_coeff env x : ℚ) : ℚ × ℚ :=
  let env2 := compEnvelope attack_coeff release_coeff env |x|
  (env2, x * compGain threshold ratio env2 * compMakeupGain threshold ratio)

/-- The whole of `SimpleCompressor.process` as a fold over the input buffer,
threading the envelope state. -/
def compProcess (threshold ratio attack_coeff release_coeff : ℚ) :
    ℚ → List ℚ → List ℚ
  | _, [] => []
  | env, x :: xs =>
    let s := compStep threshold ratio attack_coeff release_coeff env x
    s.2 :: compProcess threshold ratio attack_coeff release_coeff s.1 xs

/-! ### SimpleReverb construction (audio_engine.py lines 61-87) -/

/-- One delay line of `SimpleReverb`: buffer length in samples and effective
feedback gain (`fb_gain * (1.0 - damping)`). -/
structure DelayLine where
  size : ℕ
  feedback : ℚ
deriving DecidableEq

/-- Delay times chosen in `SimpleReverb.__init__` by the room-size threshold. -/
def reverbDelayTimes (room_size : ℚ) : List ℚ :=
  if room_size > 8 / 10 then
    [89 / 1000, 11 / 100, 127 / 1000, 135 / 1000, 22 / 100, 254 / 1000]
  else
    [15 / 1000, 23 / 1000, 35 / 1000, 47 / 1000]

/-- The fixed list `self.feedback_gains = [0.7, 0.6, 0.5, 0.4]`. -/
def reverbFeedbackGains : List ℚ := [7 / 10, 6 / 10, 5 / 10, 4 / 10]

/-- Wet mix chosen in `SimpleReverb.__init__`: 0.4 for `room_size > 0.8`,
else 0.5 (the constructor argument is overwritten in both branches). -/
def reverbWet (room_size : ℚ) : ℚ :=
  if room_size > 8 / 10 then 4 / 10 else 5 / 10

/-- Delay-line construction in `SimpleReverb.__init__`: the loop
`for delay_time, fb_gain in zip(delay_times, self.feedback_gains)` builds one
line per zipped pair, with `delay_samples = int(delay_time * sample_rate)`. -/
def reverbDelayLines (room_size damping : ℚ) (sample_rate : ℕ) : List DelayLine :=
  (List.zip (reverbDelayTimes room_size) reverbFeedbackGains).map fun p =>
    ⟨(⌊p.1 * (sample_rate : ℚ)⌋).toNat, p.2 * (1 - damping)⟩

/-! ### Playback transport (audio_engine.py lines 736-835 and 1094-1126) -/

/-- Playback-cursor state shared between `audio_callback` and the transport
methods: `self.is_playing` and `self.playback_position`. -/
structure PlaybackState where
  is_playing : Bool
  playback_position : ℕ
deriving DecidableEq

/-- Cursor effect of one `audio_callback` invocation processing `frames`
samples: when `self.is_playing` the block guarded by `if self.is_playing`
runs and ends with `self.playback_position += frames`; otherwise the cursor
is untouched. -/
def audioCallbackAdvance (s : PlaybackState) (frames : ℕ) : PlaybackState :=
  if s.is_playing then { s with playback_position := s.playback_position + frames }
  else s

/-- Transport part of `AudioEngine.start_playback`: sets `is_playing = True`
and `playback_position = 0`. -/
def startPlayback (_s : PlaybackState) : PlaybackState :=
  ⟨true, 0⟩

/-- `AudioEngine.pause_playback`: clears `is_playing`, keeps the cursor. -/
def pausePlayback (s : PlaybackState) : PlaybackState :=
  { s with is_playing := false }

/-- `AudioEngine.stop_playback`: clears `is_playing` and resets the cursor. -/
def stopPlayback (_s : PlaybackState) : PlaybackState :=
  ⟨false, 0⟩

/-- `AudioEngine.get_playback_time`: `playback_position / sample_rate` while
playing, `0` otherwise.  The engine's sample rate is the constant 44100. -/
def getPlaybackTime (s : PlaybackState) : ℚ :=
  if s.is_playing then (s.playback_position : ℚ) / 44100 else 0

/-! ### Recording finalization (audio_engine.py lines 1052-1092) -/

/-- Latency-compensation step of `AudioEngine.stop_recording` on a non-empty
captured buffer: when `measured_latency_samples > 0` and the buffer is
strictly longer, the leading samples are dropped; otherwise the buffer is
kept and (when the latency gate was taken) the "too short" warning is
printed.  Returns the stored buffer and whether the warning fired. -/
def stopRecordingCompensate (buffer : List ℚ) (latency : ℤ) : List ℚ × Bool :=
  if 0 < latency then
    if latency < (buffer.length : ℤ) then (buffer.drop latency.toNat, false)
    else (buffer, true)
  else (buffer, false)

/-! ### Metronome (audio_engine.py lines 712-734 and 846-872) -/

/-- `AudioEngine.calculate_metronome_timing`:
`samples_per_beat = int(sample_rate / (bpm / 60.0))` for positive BPM,
else one second worth of samples. -/
def calculateSamplesPerBeat (bpm sample_rate : ℕ) : ℕ :=
  if 0 < bpm then sample_rate * 60 / bpm else sample_rate

/-- `AudioEngine.get_effective_metronome_volume`: 0 at raw volume 0, else a
fixed 4x (12 dB) boost. -/
def effectiveMetronomeVolume (volume : ℚ) : ℚ :=
  if volume = 0 then 0 else volume * 4

/-- Contribution added by `AudioEngine.add_metronome_optimized` to output
sample `i` of the current frame, with cursor `pos`: the loop body gates on
`beat_position < len(self.metronome_sound)` first, then picks the accent
sound for beat 1 and re-checks `beat_position < len(sound_to_use)`. -/
def metronomeContribution (pos i spb : ℕ) (regular accent : List ℚ)
    (volume : ℚ) : ℚ :=
  let ev := effectiveMetronomeVolume volume
  if ev = 0 ∨ spb = 0 then 0
  else
    let bp := (pos + i) % spb
    if bp < regular.length then
      let current_beat := (pos + i) / spb % 4 + 1
      let sound := if current_beat = 1 then accent else regular
      if bp < sound.length then sound.getD bp 0 * ev else 0
    else 0

/-! ### Latency calibration aggregation (audio_engine.py lines 391-489) -/

/-- Python's floor-division average `sum(l) // len(l)` on the measurement
list. -/
def intFloorAvg (l : List ℤ) : ℤ :=
  Int.fdiv l.sum (l.length : ℤ)

/-- Aggregation step of `AudioEngine.measure_latency` on the collected
`latency_measurements`: fewer than 2 valid measurements raises, which the
surrounding `except` turns into the conservative fallback
`self.buffer_size * 4` without setting `latency_calibrated`; with at least 2
the list is averaged by `sum // len`, after `sort()` and dropping `[0]` and
`[-1]` when there are at least 4.  The boolean is the `latency_calibrated`
flag the call sets. -/
def measureLatencyAggregate (ms : List ℤ) (buffer_size : ℕ) : ℤ × Bool :=
  if 2 ≤ ms.length then
    let kept := if 4 ≤ ms.length then
        ((List.insertionSort (· ≤ ·) ms).drop 1).dropLast
      else ms
    (intFloorAvg kept, true)
  else ((buffer_size : ℤ) * 4, false)

/-! ### TrackManager (track_manager.py) -/

/-- Per-track state of `track_manager.Track`.  (The constant `number` field
is omitted; tracks are addressed by their key in the manager's map.) -/
structure Track where
  is_armed : Bool
  is_muted : Bool
  volume : ℚ
  has_data : Bool
  name : String
deriving DecidableEq

/-- `Track.__init__`. -/
def Track.init (number : ℕ) : Track :=
  ⟨false, false, 1, false, "Track " ++ toString number⟩

/-- `Track.arm`. -/
def Track.arm (t : Track) : Track := { t with is_armed := true }

/-- `Track.disarm`. -/
def Track.disarm (t : Track) : Track := { t with is_armed := false }

/-- `Track.toggle_mute`. -/
def Track.toggleMute (t : Track) : Track := { t with is_muted := !t.is_muted }

/-- `Track.set_volume` with its clamp to [0, 1]. -/
def Track.setVolume (t : Track) (v : ℚ) : Track :=
  { t with volume := max 0 (min 1 v) }

/-- `Track.set_has_data`. -/
def Track.setHasData (t : Track) (b : Bool) : Track := { t with has_data := b }

/-- Field reset performed by `TrackManager.clear_track` on the track object. -/
def Track.clearReset (t : Track) : Track :=
  { t with has_data := false, is_armed := false, is_muted := false, volume := 1 }

/-- State of `track_manager.TrackManager`: the `self.tracks` dict as a map
from track number to `Option Track`, plus `self.armed_track`. -/
structure TrackManager where
  num_tracks : ℕ
  tracks : ℕ → Option Track
  armed_track : Option ℕ

/-- `TrackManager.__init__` with the default `num_tracks = 8` used by the
application. -/
def TrackManager.init : TrackManager :=
  ⟨8, fun i => if 1 ≤ i ∧ i ≤ 8 then some (Track.init i) else none, none⟩

/-- Pointwise update of one key of the track dict, used by the guarded
mutators below. -/
def TrackManager.updateTrack (s : TrackManager) (n : ℕ) (f : Track → Track) :
    TrackManager :=
  { s with tracks := fun i => if i = n then (s.tracks i).map f else s.tracks i }

/-- `TrackManager.arm_track`: disarms every track, then — only when the key
exists — arms the selected one and records it in `armed_track`.  (The code
after the early `return` statements is unreachable and not modelled.) -/
def TrackManager.armTrack (s : TrackManager) (n : ℕ) : TrackManager :=
  let disarmed : ℕ → Option Track := fun i => (s.tracks i).map Track.disarm
  if (s.tracks n).isSome then
    { s with
      tracks := fun i => if i = n then (disarmed i).map Track.arm else disarmed i
      armed_track := some n }
  else { s with tracks := disarmed }

/-- `TrackManager.disarm_all_tracks`. -/
def TrackManager.disarmAllTracks (s : TrackManager) : TrackManager :=
  { s with tracks := fun i => (s.tracks i).map Track.disarm, armed_track := none }

/-- `TrackManager.toggle_track_mute`: guarded by `track_number in self.tracks`. -/
def TrackManager.toggleTrackMute (s : TrackManager) (n : ℕ) : TrackManager :=
  if (s.tracks n).isSome then s.updateTrack n Track.toggleMute else s

/-- `TrackManager.set_track_volume`: guarded by key membership. -/
def TrackManager.setTrackVolume (s : TrackManager) (n : ℕ) (v : ℚ) : TrackManager :=
  if (s.tracks n).isSome then s.updateTrack n (fun t => t.setVolume v) else s

/-- `TrackManager.mark_track_has_data`: guarded by key membership. -/
def TrackManager.markTrackHasData (s : TrackManager) (n : ℕ) (b : Bool) : TrackManager :=
  if (s.tracks n).isSome then s.updateTrack n (fun t => t.setHasData b) else s

/-- `TrackManager.clear_track`: resets the track's fields and clears
`armed_track` when it pointed at this track. -/
def TrackManager.clearTrack (s : TrackManager) (n : ℕ) : TrackManager :=
  if (s.tracks n).isSome then
    { s.updateTrack n Track.clearReset with
      armed_track := if s.armed_track = some n then none else s.armed_track }
  else s

/-- `TrackManager.reset_all_tracks`: `clear_track` over every key; for the
states reachable from `init` the key set is `1..num_tracks`. -/
def TrackManager.resetAllTracks (s : TrackManager) : TrackManager :=
  (List.range' 1 s.num_tracks).foldl TrackManager.clearTrack s

/-- Observable armed flag of a track, for stating properties. -/
def TrackManager.trackArmed (s : TrackManager) (n : ℕ) : Bool :=
  match s.tracks n with
  | some t => t.is_armed
  | none => false

/-- States reachable from the initial manager through its mutating methods. -/
inductive TrackManager.Reachable : TrackManager → Prop
  | init : TrackManager.Reachable TrackManager.init
  | arm (s : TrackManager) (n : ℕ) :
      TrackManager.Reachable s → TrackManager.Reachable (s.armTrack n)
  | disarmAll (s : TrackManager) :
      TrackManager.Reachable s → TrackManager.Reachable s.disarmAllTracks
  | mute (s : TrackManager) (n : ℕ) :
      TrackManager.Reachable s → TrackManager.Reachable (s.toggleTrackMute n)
  | vol (s : TrackManager) (n : ℕ) (v : ℚ) :
      TrackManager.Reachable s → TrackManager.Reachable (s.setTrackVolume n v)
  | mark (s : TrackManager) (n : ℕ) (b : Bool) :
      TrackManager.Reachable s → TrackManager.Reachable (s.markTrackHasData n b)
  | clear (s : TrackManager) (n : ℕ) :
      TrackManager.Reachable s → TrackManager.Reachable (s.clearTrack n)
  | reset (s : TrackManager) :
      TrackManager.Reachable s → TrackManager.Reachable s.resetAllTracks

/-- The armed-exclusivity invariant: no two distinct keys hold armed tracks. -/
def TrackManager.AtMostOneArmed (s : TrackManager) : Prop :=
  ∀ i j ti tj, s.tracks i = some ti → s.tracks j = some tj →
    ti.is_armed = true → tj.is_armed = true → i = j

/-! ### AudioEngine per-track settings (audio_engine.py lines 213-263) -/

/-- The FX processor pair built by `AudioEngine.set_track_fx`: optional
compressor parameters (threshold, ratio) and optional reverb parameters
(room_size, wet argument). -/
structure FxChain where
  compressor : Option (ℚ × ℚ)
  reverb : Option (ℚ × ℚ)
deriving DecidableEq

/-- Processor construction in `AudioEngine.set_track_fx` by FX type string. -/
def fxChainFor (fx_type : String) : FxChain :=
  if fx_type = "wide_hall" then ⟨some (7 / 10, 3), some (9 / 10, 4 / 10)⟩
  else if fx_type = "studio" then ⟨some (6 / 10, 4), some (1 / 2, 1 / 4)⟩
  else if fx_type = "compressor" then ⟨some (1 / 2, 6), none⟩
  else ⟨none, none⟩

/-- The engine's per-track settings dicts `self.track_volumes`,
`self.track_fx` and `self.fx_processors`, each keyed by track number. -/
structure EngineSettings where
  track_volumes : ℕ → Option ℚ
  track_fx : ℕ → Option String
  fx_processors : ℕ → Option FxChain

/-- Per-track settings part of `AudioEngine.__init__`: keys 1..8 get volume
0.75, FX type "none" and an empty processor dict. -/
def EngineSettings.init : EngineSettings :=
  ⟨fun i => if 1 ≤ i ∧ i ≤ 8 then some (3 / 4) else none,
   fun i => if 1 ≤ i ∧ i ≤ 8 then some "none" else none,
   fun i => if 1 ≤ i ∧ i ≤ 8 then some ⟨none, none⟩ else none⟩

/-- `AudioEngine.set_track_volume`: unconditional dict assignment of the
clamped value (creates the key if absent). -/
def EngineSettings.setTrackVolume (e : EngineSettings) (n : ℕ) (v : ℚ) :
    EngineSettings :=
  { e with track_volumes := fun i =>
      if i = n then some (max 0 (min 1 v)) else e.track_volumes i }

/-- `AudioEngine.get_track_volume`: dict lookup with default 0.75. -/
def EngineSettings.getTrackVolume (e : EngineSettings) (n : ℕ) : ℚ :=
  (e.track_volumes n).getD (3 / 4)

/-- `AudioEngine.set_track_fx`: unconditional dict assignments of the FX
type string and the freshly constructed processors. -/
def EngineSettings.setTrackFx (e : EngineSettings) (n : ℕ) (fx_type : String) :
    EngineSettings :=
  { e with
    track_fx := fun i => if i = n then some fx_type else e.track_fx i
    fx_processors := fun i =>
      if i = n then some (fxChainFor fx_type) else e.fx_processors i }

/-- `AudioEngine.get_track_fx`: dict lookup with default "none". -/
def EngineSettings.getTrackFx (e : EngineSettings) (n : ℕ) : String :=
  (e.track_fx n).getD "none"

/-! ### Project persistence (project_manager.py lines 65-154) -/

/-- Per-track record written by `ProjectManager.save_project`. -/
structure SavedTrack where
  has_data : Bool
  is_muted : Bool
  volume : ℚ
  name : String
  fx_type : String
  track_volume : ℚ
deriving DecidableEq

/-- Track-record construction in `ProjectManager.save_project`: for each
`track_num in range(1, 9)` with an existing track, the record collects the
track object's mute/volume/name, the engine's data-presence flag and the
engine's FX type and per-track volume.  (JSON serialisation turns the
integer keys into strings; `apply_project_to_managers` converts them back
with `int`, so keys round-trip and are modelled as `ℕ` directly.) -/
def saveProjectTracks (tm : TrackManager) (e : EngineSettings)
    (hasData : ℕ → Bool) : ℕ → Option SavedTrack := fun n =>
  if 1 ≤ n ∧ n ≤ 8 then
    (tm.tracks n).map fun t =>
      ⟨hasData n, t.is_muted, t.volume, t.name, e.getTrackFx n, e.getTrackVolume n⟩
  else none

/-- Track part of `ProjectManager.apply_project_to_managers`: for every
saved entry whose track exists in the target manager, the track's mute flag,
clamped volume and name are set, and the engine receives `set_track_fx` and
`set_track_volume` for that track. -/
def applyProjectTracks (saved : ℕ → Option SavedTrack) (tm : TrackManager)
    (e : EngineSettings) : TrackManager × EngineSettings :=
  ({ tm with tracks := fun n =>
      match tm.tracks n, saved n with
      | some t, some st =>
          some { t with is_muted := st.is_muted, volume := max 0 (min 1 st.volume),
                        name := st.name }
      | some t, none => some t
      | none, _ => none },
   { e with
     track_fx := fun n =>
       match saved n, tm.tracks n with
       | some st, some _ => some st.fx_type
       | _, _ => e.track_fx n
     fx_processors := fun n =>
       match saved n, tm.tracks n with
       | some st, some _ => some (fxChainFor st.fx_type)
       | _, _ => e.fx_processors n
     track_volumes := fun n =>
       match saved n, tm.tracks n with
       | some st, some _ => some (max 0 (min 1 st.track_volume))
       | _, _ => e.track_volumes n })

/-! ## Theorems -/

/-- C1: after N callback invocations of `frames` samples each, starting from
`start_playback` (so playback is active throughout, since the callback never
clears the flag), the playback cursor equals exactly N*frames; and
`stop_playback` resets the cursor to 0. -/
theorem c1_playback_cursor (s : PlaybackState) (frames N : ℕ) :
    ((fun st => audioCallbackAdvance st frames)^[N] (startPlayback s)).playback_position
      = N * frames ∧ (stopPlayback s).playback_position = 0 := by
  constructor
  · have key : ∀ (M p : ℕ),
        ((fun st => audioCallbackAdvance st frames)^[M]
          (⟨true, p⟩ : PlaybackState)).playback_position = p + M * frames := by
      intro M
      induction M with
      | zero => intro p; simp
      | succ M ih =>
        intro p
        rw [Function.iterate_succ_apply]
        have hstep : audioCallbackAdvance (⟨true, p⟩ : PlaybackState) frames
            = (⟨true, p + frames⟩ : PlaybackState) := by
          simp [audioCallbackAdvance]
        rw [hstep, ih]
        ring
    simpa [startPlayback] using key N 0
  · rfl

/-- C10: `get_playback_time` reports `playback_position / sample_rate` while
playing and exactly 0 otherwise; `pause_playback` keeps the internal cursor,
so a paused engine with a nonzero cursor still reports time 0. -/
theorem c10_playback_time (s : PlaybackState) (hplay : s.is_playing = true)
    (hpos : s.playback_position ≠ 0) :
    getPlaybackTime s = (s.playback_position : ℚ) / 44100 ∧
    (∀ s2 : PlaybackState, s2.is_playing = false → getPlaybackTime s2 = 0) ∧
    (pausePlayback s).playback_position = s.playback_position ∧
    (pausePlayback s).playback_position ≠ 0 ∧
    getPlaybackTime (pausePlayback s) = 0 :=
  ⟨by simp [getPlaybackTime, hplay],
   fun s2 h2 => by simp [getPlaybackTime, h2],
   rfl, hpos, by simp [getPlaybackTime, pausePlayback]⟩

/-- Witness for C10 at the paused-after-half-a-second state. -/
theorem c10_playback_time_witness :
    getPlaybackTime ⟨true, 22050⟩ = ((22050 : ℕ) : ℚ) / 44100 ∧
    (∀ s2 : PlaybackState, s2.is_playing = false → getPlaybackTime s2 = 0) ∧
    (pausePlayback ⟨true, 22050⟩).playback_position = 22050 ∧
    (pausePlayback ⟨true, 22050⟩).playback_position ≠ 0 ∧
    getPlaybackTime (pausePlayback ⟨true, 22050⟩) = 0 :=
  c10_playback_time ⟨true, 22050⟩ rfl (by decide)

/-- C4 counterexample: with measured latency 2 and a captured buffer of
exactly 2 samples (so the buffer is *not shorter* than the latency), the
code keeps the recording untrimmed and warns, while the claim demands
trimming down to length `2 - 2 = 0`. -/
theorem c4_boundary_counterexample :
    (0 : ℤ) < 2 ∧ ¬ ((([(1 : ℚ), 2]).length : ℤ) < 2) ∧
    stopRecordingCompensate [(1 : ℚ), 2] 2 = ([(1 : ℚ), 2], true) ∧
    (stopRecordingCompensate [(1 : ℚ), 2] 2).1.length ≠ ([(1 : ℚ), 2]).length - 2 := by
  decide

/-- C4 amended: with latency L > 0, exactly L leading samples are trimmed
when the captured buffer is strictly longer than L (stored length is
captured length minus L); when the captured length is at most L the
recording is kept as-is and the warning fires. -/
theorem c4_latency_trim (buffer : List ℚ) (L : ℤ) (hL : 0 < L) :
    (L < (buffer.length : ℤ) →
      stopRecordingCompensate buffer L = (buffer.drop L.toNat, false) ∧
      (stopRecordingCompensate buffer L).1.length = buffer.length - L.toNat) ∧
    ((buffer.length : ℤ) ≤ L →
      stopRecordingCompensate buffer L = (buffer, true)) := by
  constructor
  · intro h
    refine ⟨by simp [stopRecordingCompensate, hL, h], ?_⟩
    simp [stopRecordingCompensate, hL, h]
  · intro h
    simp [stopRecordingCompensate, hL, not_lt.mpr h]

/-- Witness for C4's amended statement: a 3-sample recording with latency 1
is trimmed to its last 2 samples. -/
theorem c4_latency_trim_witness :
    stopRecordingCompensate [(1 : ℚ), 2, 3] 1 = ([(2 : ℚ), 3], false) :=
  ((c4_latency_trim [(1 : ℚ), 2, 3] 1 (by decide)).1 (by decide)).1

/-- C2 at the failing input: for `room_size = 0.9` the constructor's `zip`
against the 4-element feedback list truncates the six listed large-hall
delay times to four delay lines (lengths `int(t * 44100)` of the first four
times only), although six delay times are selected and the claim demands
six lines.  The wet-mix selections and the four small-room lines are as
claimed. -/
theorem c2_reverb_delay_lines :
    (reverbDelayLines (9 / 10) (1 / 2) 44100).length = 4 ∧
    (reverbDelayLines (9 / 10) (1 / 2) 44100).map DelayLine.size
      = [3924, 4851, 5600, 5953] ∧
    (reverbDelayTimes (9 / 10)).length = 6 ∧
    reverbWet (9 / 10) = 4 / 10 ∧
    reverbWet (1 / 2) = 1 / 2 ∧
    (reverbDelayLines (1 / 2) (1 / 2) 44100).map DelayLine.size
      = [661, 1014, 1543, 2072] ∧
    (reverbDelayLines (1 / 2) (1 / 2) 44100).length = 4 := by
  have h1 : ⌊(89 / 1000 : ℚ) * 44100⌋ = 3924 := by rw [Int.floor_eq_iff]; norm_num
  have h2 : ⌊(11 / 100 : ℚ) * 44100⌋ = 4851 := by rw [Int.floor_eq_iff]; norm_num
  have h3 : ⌊(127 / 1000 : ℚ) * 44100⌋ = 5600 := by rw [Int.floor_eq_iff]; norm_num
  have h4 : ⌊(135 / 1000 : ℚ) * 44100⌋ = 5953 := by rw [Int.floor_eq_iff]; norm_num
  have h5 : ⌊(15 / 1000 : ℚ) * 44100⌋ = 661 := by rw [Int.floor_eq_iff]; norm_num
  have h6 : ⌊(23 / 1000 : ℚ) * 44100⌋ = 1014 := by rw [Int.floor_eq_iff]; norm_num
  have h7 : ⌊(35 / 1000 : ℚ) * 44100⌋ = 1543 := by rw [Int.floor_eq_iff]; norm_num
  have h8 : ⌊(47 / 1000 : ℚ) * 44100⌋ = 2072 := by rw [Int.floor_eq_iff]; norm_num
  refine ⟨?_, ?_, ?_, ?_, ?_, ?_, ?_⟩ <;>
    norm_num [reverbDelayLines, reverbDelayTimes, reverbFeedbackGains, reverbWet,
      h1, h2, h3, h4, h5, h6, h7, h8]
  all_goals decide

/-- C6 counterexample: at BPM 120 (samples_per_beat 22050) with a 1-sample
regular click and a 2-sample accent click, output index 1 of a frame at
cursor 0 lies on beat 1 within the accent waveform's length and the claim
predicts the accent sample `3 * effective_volume = 6` is added, but the
code's outer gate compares against the regular waveform's length and adds
nothing. -/
theorem c6_metronome_counterexample :
    calculateSamplesPerBeat 120 44100 = 22050 ∧
    (0 + 1) / 22050 % 4 + 1 = 1 ∧
    (0 + 1) % 22050 < ([(2 : ℚ), 3]).length ∧
    ([(2 : ℚ), 3]).getD ((0 + 1) % 22050) 0 * effectiveMetronomeVolume (1 / 2) = 6 ∧
    metronomeContribution 0 1 22050 [(1 : ℚ)] [(2 : ℚ), 3] (1 / 2) = 0 := by
  refine ⟨by norm_num [calculateSamplesPerBeat], by norm_num, by norm_num, ?_, ?_⟩
  · norm_num [effectiveMetronomeVolume]
  · norm_num [metronomeContribution, effectiveMetronomeVolume]

/-- C6 amended: samples_per_beat at BPM 120 / 44100 Hz is 22050, and the
metronome adds the applicable waveform's sample at offset
`(cursor+i) mod samples_per_beat` scaled by the effective volume exactly
when that offset is within both the regular waveform's length and the
applicable waveform's length, the accent waveform applying when
`floor((cursor+i)/samples_per_beat) mod 4 + 1 = 1`. -/
theorem c6_metronome_click (pos i spb : ℕ) (regular accent : List ℚ)
    (volume : ℚ) (hspb : 0 < spb) :
    calculateSamplesPerBeat 120 44100 = 22050 ∧
    metronomeContribution pos i spb regular accent volume =
      (if (pos + i) % spb < regular.length ∧
          (pos + i) % spb <
            (if (pos + i) / spb % 4 + 1 = 1 then accent else regular).length
       then (if (pos + i) / spb % 4 + 1 = 1 then accent else regular).getD
              ((pos + i) % spb) 0 * effectiveMetronomeVolume volume
       else 0) := by
  refine ⟨by decide, ?_⟩
  unfold metronomeContribution
  by_cases hv : volume = 0
  · have hev : effectiveMetronomeVolume volume = 0 := by
      simp [effectiveMetronomeVolume, hv]
    simp [hev]
  · have hev : effectiveMetronomeVolume volume ≠ 0 := by
      simp [effectiveMetronomeVolume, hv]
    simp only [hev, hspb.ne', or_self, if_false]
    split_ifs with h1 h2 h3 h4 h5 <;> simp_all

/-- Witness for C6's amended statement at cursor 0, frame index 0. -/
theorem c6_metronome_click_witness :
    calculateSamplesPerBeat 120 44100 = 22050 ∧
    metronomeContribution 0 0 22050 [(1 : ℚ)] [(2 : ℚ)] 1 =
      (if (0 + 0) % 22050 < ([(1 : ℚ)]).length ∧
          (0 + 0) % 22050 <
            (if (0 + 0) / 22050 % 4 + 1 = 1 then [(2 : ℚ)] else [(1 : ℚ)]).length
       then (if (0 + 0) / 22050 % 4 + 1 = 1 then [(2 : ℚ)] else [(1 : ℚ)]).getD
              ((0 + 0) % 22050) 0 * effectiveMetronomeVolume 1
       else 0) :=
  c6_metronome_click 0 0 22050 [(1 : ℚ)] [(2 : ℚ)] 1 (by decide)

/-- The makeup gain is at least 1 for a positive threshold and ratio ≥ 1. -/
lemma compMakeupGain_ge_one (threshold ratio : ℚ) (ht : 0 < threshold)
    (hr : 1 ≤ ratio) : 1 ≤ compMakeupGain threshold ratio := by
  unfold compMakeupGain
  have hr0 : (0 : ℚ) < ratio := lt_of_lt_of_le one_pos hr
  have h1 : 1 / ratio ≤ 1 := by
    rw [div_le_one hr0]; exact hr
  nlinarith

/-- The per-sample gain is nonnegative. -/
lemma compGain_nonneg (threshold ratio env : ℚ) (ht : 0 < threshold)
    (hr : 1 ≤ ratio) : 0 ≤ compGain threshold ratio env := by
  unfold compGain
  split_ifs with h1 h2
  · have hr0 : (0 : ℚ) < ratio := lt_of_lt_of_le one_pos hr
    have : 0 ≤ (env - threshold) / ratio := div_nonneg (by linarith) (le_of_lt hr0)
    positivity
  · norm_num
  · norm_num

/-- The per-sample gain never exceeds 1: above threshold the target level
`threshold + (envelope - threshold)/ratio` is at most the envelope. -/
lemma compGain_le_one (threshold ratio env : ℚ) (ht : 0 < threshold)
    (hr : 1 ≤ ratio) : compGain threshold ratio env ≤ 1 := by
  unfold compGain
  split_ifs with h1 h2
  · rw [div_le_one h2]
    have h3 : (env - threshold) / ratio ≤ env - threshold :=
      div_le_self (by linarith) hr
    linarith
  · norm_num
  · norm_num

/-- One compressor step obeys the makeup-gain bound, whatever the incoming
envelope state. -/
lemma compStep_bound (threshold ratio attack_coeff release_coeff env x : ℚ)
    (ht : 0 < threshold) (hr : 1 ≤ ratio) :
    |(compStep threshold ratio attack_coeff release_coeff env x).2|
      ≤ |x| * compMakeupGain threshold ratio := by
  unfold compStep
  set env2 := compEnvelope attack_coeff release_coeff env |x| with henv
  have hg0 : 0 ≤ compGain threshold ratio env2 := compGain_nonneg _ _ _ ht hr
  have hg1 : compGain threshold ratio env2 ≤ 1 := compGain_le_one _ _ _ ht hr
  have hm0 : 0 ≤ compMakeupGain threshold ratio := by
    have := compMakeupGain_ge_one threshold ratio ht hr; linarith
  calc |x * compGain threshold ratio env2 * compMakeupGain threshold ratio|
      = |x| * compGain threshold ratio env2 * compMakeupGain threshold ratio := by
        rw [abs_mul, abs_mul, abs_of_nonneg hg0, abs_of_nonneg hm0]
    _ ≤ |x| * 1 * compMakeupGain threshold ratio := by
        have := mul_le_mul_of_nonneg_left hg1 (abs_nonneg x)
        exact mul_le_mul_of_nonneg_right this hm0
    _ = |x| * compMakeupGain threshold ratio := by ring

/-- C3: for threshold in (0,1] and ratio ≥ 1, every output sample of the
compressor has magnitude at most the corresponding input sample's magnitude
times the makeup gain `1 + (1 - 1/ratio) * threshold`, which is applied to
every sample; the bound holds from any envelope state. -/
theorem c3_compressor_bound (threshold ratio attack_coeff release_coeff env : ℚ)
    (xs : List ℚ) (i : ℕ) (ht0 : 0 < threshold) (ht1 : threshold ≤ 1)
    (hr : 1 ≤ ratio) :
    |(compProcess threshold ratio attack_coeff release_coeff env xs).getD i 0|
      ≤ |xs.getD i 0| * compMakeupGain threshold ratio := by
  induction xs generalizing env i with
  | nil =>
    simp [compProcess]
  | cons x xs ih =>
    cases i with
    | zero =>
      simpa [compProcess] using
        compStep_bound threshold ratio attack_coeff release_coeff env x ht0 hr
    | succ n =>
      simpa [compProcess] using ih _ n

/-- Witness for C3 on a concrete two-sample buffer. -/
theorem c3_compressor_bound_witness :
    |(compProcess (1 / 2) 2 (1 / 2) (1 / 2) 0 [(1 : ℚ), -2]).getD 0 0|
      ≤ |([(1 : ℚ), -2]).getD 0 0| * compMakeupGain (1 / 2) 2 :=
  c3_compressor_bound (1 / 2) 2 (1 / 2) (1 / 2) 0 [(1 : ℚ), -2] 0
    (by norm_num) (by norm_num) (by norm_num)

/-- Every member of a list sorted by `≤` is at most its last element. -/
lemma sorted_le_getLast :
    ∀ (l : List ℤ), l.Sorted (· ≤ ·) → ∀ x ∈ l, ∀ h : l ≠ [], x ≤ l.getLast h := by
  intro l
  induction l with
  | nil => intro _ x hx; simp at hx
  | cons a t ih =>
    intro hs x hx h
    rcases List.mem_cons.mp hx with rfl | hxt
    · cases t with
      | nil => simp [List.getLast]
      | cons b t2 =>
        have h2 : (b :: t2) ≠ [] := by simp
        rw [List.getLast_cons h2]
        exact (List.sorted_cons.mp hs).1 _ (List.getLast_mem h2)
    · cases t with
      | nil => simp at hxt
      | cons b t2 =>
        have h2 : (b :: t2) ≠ [] := by simp
        rw [List.getLast_cons h2]
        exact ih (List.sorted_cons.mp hs).2 x hxt h2

/-- C5: the calibration aggregation fails to a conservative 4x-buffer-size
estimate without marking calibration when fewer than 2 measurements are
valid; with 2 or 3 it floor-averages all of them and marks calibration; with
4 or more it discards exactly one minimal and one maximal measurement and
floor-averages the rest, marking calibration. -/
theorem c5_latency_aggregation (ms : List ℤ) (buffer_size : ℕ) :
    (ms.length < 2 →
      measureLatencyAggregate ms buffer_size = ((buffer_size : ℤ) * 4, false)) ∧
    (2 ≤ ms.length → ms.length < 4 →
      measureLatencyAggregate ms buffer_size = (intFloorAvg ms, true)) ∧
    (4 ≤ ms.length →
      ∃ lo hi kept, ms.Perm (lo :: hi :: kept) ∧
        (∀ x ∈ ms, lo ≤ x) ∧ (∀ x ∈ ms, x ≤ hi) ∧
        kept.length = ms.length - 2 ∧
        measureLatencyAggregate ms buffer_size = (intFloorAvg kept, true)) := by
  refine ⟨?_, ?_, ?_⟩
  · intro h
    have hn : ¬ 2 ≤ ms.length := by omega
    simp [measureLatencyAggregate, hn]
  · intro h2 h4
    have hn4 : ¬ 4 ≤ ms.length := by omega
    simp [measureLatencyAggregate, h2, hn4]
  · intro h4
    have h2 : 2 ≤ ms.length := by omega
    set s := List.insertionSort (· ≤ ·) ms with hs
    have hperm : s.Perm ms := List.perm_insertionSort _ _
    have hsort : s.Sorted (· ≤ ·) := List.sorted_insertionSort _ _
    have hlen : s.length = ms.length := hperm.length_eq
    obtain ⟨lo, t, hst⟩ : ∃ lo t, s = lo :: t := by
      cases hcs : s with
      | nil => rw [hcs] at hlen; simp at hlen; omega
      | cons a t => exact ⟨a, t, rfl⟩
    have ht : t ≠ [] := by
      intro h0
      rw [hst, h0] at hlen
      simp at hlen
      omega
    refine ⟨lo, t.getLast ht, t.dropLast, ?_, ?_, ?_, ?_, ?_⟩
    · have h1 : s = lo :: (t.dropLast ++ [t.getLast ht]) := by
        rw [List.dropLast_append_getLast ht]; exact hst
      have h2p : (t.dropLast ++ [t.getLast ht]).Perm (t.getLast ht :: t.dropLast) := by
        simpa using @List.perm_middle ℤ (t.getLast ht) t.dropLast []
      exact hperm.symm.trans (h1 ▸ (h2p.cons lo))
    · intro x hx
      have hxs : x ∈ lo :: t := by rw [← hst]; exact hperm.mem_iff.mpr hx
      rcases List.mem_cons.mp hxs with rfl | hxt
      · exact le_refl x
      · have hcons : (lo :: t).Sorted (· ≤ ·) := hst ▸ hsort
        exact (List.sorted_cons.mp hcons).1 x hxt
    · intro x hx
      have hxs : x ∈ s := hperm.mem_iff.mpr hx
      have hne : s ≠ [] := by rw [hst]; simp
      have hle : x ≤ s.getLast hne := sorted_le_getLast s hsort x hxs hne
      have hgl : s.getLast hne = t.getLast ht := by
        have : (lo :: t).getLast (by simp) = t.getLast ht := List.getLast_cons ht
        simpa [hst] using this
      rwa [hgl] at hle
    · have h1 : t.length + 1 = ms.length := by
        rw [← hlen, hst]; simp
      rw [List.length_dropLast]
      omega
    · have hdrop : s.tail.dropLast = t.dropLast := by rw [hst]; simp
      rw [hs] at hdrop
      simp [measureLatencyAggregate, h2, h4, hdrop]

/-- Witness for C5 on the four measurements [5, 1, 9, 3]: the discarded
extremes are 1 and 9 and the kept pair averages to 4. -/
theorem c5_latency_aggregation_witness :
    ∃ lo hi kept, ([5, 1, 9, 3] : List ℤ).Perm (lo :: hi :: kept) ∧
      (∀ x ∈ ([5, 1, 9, 3] : List ℤ), lo ≤ x) ∧
      (∀ x ∈ ([5, 1, 9, 3] : List ℤ), x ≤ hi) ∧
      kept.length = ([5, 1, 9, 3] : List ℤ).length - 2 ∧
      measureLatencyAggregate [5, 1, 9, 3] 256 = (intFloorAvg kept, true) :=
  (c5_latency_aggregation [5, 1, 9, 3] 256).2.2 (by decide)

/-- Domain predicate: the track dict holds exactly the keys 1..8, as set up
by `TrackManager.__init__`. -/
def TrackManager.DomOk (s : TrackManager) : Prop :=
  ∀ i, (s.tracks i).isSome ↔ (1 ≤ i ∧ i ≤ 8)

/-- An armed-flag-reflecting state map preserves armed exclusivity. -/
lemma atMostOne_of_pointwise (s s2 : TrackManager)
    (h : ∀ i t2, s2.tracks i = some t2 → t2.is_armed = true →
      ∃ t, s.tracks i = some t ∧ t.is_armed = true)
    (hs : s.AtMostOneArmed) : s2.AtMostOneArmed := by
  intro i j ti tj hi hj hai haj
  obtain ⟨t1, hb1, ha1⟩ := h i ti hi hai
  obtain ⟨t2, hb2, ha2⟩ := h j tj hj haj
  exact hs i j t1 t2 hb1 hb2 ha1 ha2

/-- A single-key update whose function does not introduce an armed flag
preserves armed exclusivity. -/
lemma atMostOne_updateTrack (s : TrackManager) (n : ℕ) (f : Track → Track)
    (hf : ∀ t, (f t).is_armed = true → t.is_armed = true)
    (hs : s.AtMostOneArmed) : (s.updateTrack n f).AtMostOneArmed := by
  apply atMostOne_of_pointwise s
  · intro i t2 hi hai
    unfold TrackManager.updateTrack at hi
    dsimp only at hi
    by_cases hin : i = n
    · rw [if_pos hin] at hi
      obtain ⟨t0, ht0, rfl⟩ := Option.map_eq_some'.mp hi
      exact ⟨t0, ht0, hf t0 hai⟩
    · rw [if_neg hin] at hi
      exact ⟨t2, hi, hai⟩
  · exact hs

/-- After `arm_track` at most one track is armed, from any starting state. -/
lemma atMostOne_armTrack (s : TrackManager) (n : ℕ) :
    (s.armTrack n).AtMostOneArmed := by
  unfold TrackManager.armTrack
  by_cases hc : (s.tracks n).isSome
  · simp only [hc, if_true]
    intro i j ti tj hi hj hai haj
    dsimp only at hi hj
    by_cases hin : i = n
    · by_cases hjn : j = n
      · rw [hin, hjn]
      · exfalso
        rw [if_neg hjn] at hj
        obtain ⟨t0, _, rfl⟩ := Option.map_eq_some'.mp hj
        simp [Track.disarm] at haj
    · exfalso
      rw [if_neg hin] at hi
      obtain ⟨t0, _, rfl⟩ := Option.map_eq_some'.mp hi
      simp [Track.disarm] at hai
  · simp only [hc, if_false]
    intro i j ti tj hi hj hai haj
    obtain ⟨t0, _, rfl⟩ := Option.map_eq_some'.mp hi
    simp [Track.disarm] at hai

/-- After `disarm_all_tracks` no track is armed. -/
lemma atMostOne_disarmAll (s : TrackManager) : s.disarmAllTracks.AtMostOneArmed := by
  intro i j ti tj hi hj hai haj
  unfold TrackManager.disarmAllTracks at hi
  dsimp only at hi
  obtain ⟨t0, _, rfl⟩ := Option.map_eq_some'.mp hi
  simp [Track.disarm] at hai

/-- `clear_track` preserves armed exclusivity. -/
lemma atMostOne_clearTrack (s : TrackManager) (n : ℕ)
    (hs : s.AtMostOneArmed) : (s.clearTrack n).AtMostOneArmed := by
  unfold TrackManager.clearTrack
  by_cases hc : (s.tracks n).isSome
  · simp only [hc, if_true]
    have h2 := atMostOne_updateTrack s n Track.clearReset
      (by intro t ht; simp [Track.clearReset] at ht) hs
    intro i j ti tj hi hj hai haj
    exact h2 i j ti tj hi hj hai haj
  · simp only [hc, if_false]
    exact hs

/-- A fold of `clear_track` over any key list preserves armed exclusivity. -/
lemma atMostOne_foldl_clear (L : List ℕ) :
    ∀ s : TrackManager, s.AtMostOneArmed →
      (L.foldl TrackManager.clearTrack s).AtMostOneArmed := by
  induction L with
  | nil => intro s hs; exact hs
  | cons n L ih =>
    intro s hs
    exact ih _ (atMostOne_clearTrack s n hs)

/-- Single-key updates preserve the key set. -/
lemma domOk_updateTrack (s : TrackManager) (n : ℕ) (f : Track → Track)
    (h : s.DomOk) : (s.updateTrack n f).DomOk := by
  intro i
  unfold TrackManager.updateTrack
  dsimp only
  by_cases hi : i = n
  · rw [if_pos hi]
    simpa using h i
  · rw [if_neg hi]
    exact h i

/-- `arm_track` preserves the key set. -/
lemma domOk_armTrack (s : TrackManager) (n : ℕ) (h : s.DomOk) :
    (s.armTrack n).DomOk := by
  intro i
  unfold TrackManager.armTrack
  by_cases hc : (s.tracks n).isSome
  · simp only [hc, if_true]
    by_cases hi : i = n
    · rw [if_pos hi]
      simpa using h i
    · rw [if_neg hi]
      simpa using h i
  · simp only [hc, if_false]
    simpa using h i

/-- `disarm_all_tracks` preserves the key set. -/
lemma domOk_disarmAll (s : TrackManager) (h : s.DomOk) :
    s.disarmAllTracks.DomOk := by
  intro i
  unfold TrackManager.disarmAllTracks
  simpa using h i

/-- `clear_track` preserves the key set. -/
lemma domOk_clearTrack (s : TrackManager) (n : ℕ) (h : s.DomOk) :
    (s.clearTrack n).DomOk := by
  unfold TrackManager.clearTrack
  by_cases hc : (s.tracks n).isSome
  · simp only [hc, if_true]
    intro i
    exact domOk_updateTrack s n Track.clearReset h i
  · simp only [hc, if_false]
    exact h

/-- A fold of `clear_track` preserves the key set. -/
lemma domOk_foldl_clear (L : List ℕ) :
    ∀ s : TrackManager, s.DomOk →
      (L.foldl TrackManager.clearTrack s).DomOk := by
  induction L with
  | nil => intro s hs; exact hs
  | cons n L ih =>
    intro s hs
    exact ih _ (domOk_clearTrack s n hs)

/-- Every reachable manager state has exactly keys 1..8 and at most one
armed track. -/
lemma reachable_invariant (s : TrackManager) (h : TrackManager.Reachable s) :
    s.DomOk ∧ s.AtMostOneArmed := by
  induction h with
  | init =>
    constructor
    · intro i
      unfold TrackManager.init
      dsimp only
      by_cases hi : 1 ≤ i ∧ i ≤ 8 <;> simp [hi]
    · intro i j ti tj hi hj hai haj
      unfold TrackManager.init at hi
      dsimp only at hi
      by_cases h1 : 1 ≤ i ∧ i ≤ 8
      · rw [if_pos h1] at hi
        cases hi
        simp [Track.init] at hai
      · rw [if_neg h1] at hi
        cases hi
  | arm s n _ ih =>
    exact ⟨domOk_armTrack s n ih.1, atMostOne_armTrack s n⟩
  | disarmAll s _ ih =>
    exact ⟨domOk_disarmAll s ih.1, atMostOne_disarmAll s⟩
  | mute s n _ ih =>
    refine ⟨?_, ?_⟩
    · unfold TrackManager.toggleTrackMute
      by_cases hc : (s.tracks n).isSome
      · simp only [hc, if_true]
        exact domOk_updateTrack s n Track.toggleMute ih.1
      · simp only [hc, if_false]
        exact ih.1
    · unfold TrackManager.toggleTrackMute
      by_cases hc : (s.tracks n).isSome
      · simp only [hc, if_true]
        exact atMostOne_updateTrack s n Track.toggleMute
          (by intro t ht; simpa [Track.toggleMute] using ht) ih.2
      · simp only [hc, if_false]
        exact ih.2
  | vol s n v _ ih =>
    refine ⟨?_, ?_⟩
    · unfold TrackManager.setTrackVolume
      by_cases hc : (s.tracks n).isSome
      · simp only [hc, if_true]
        exact domOk_updateTrack s n _ ih.1
      · simp only [hc, if_false]
        exact ih.1
    · unfold TrackManager.setTrackVolume
      by_cases hc : (s.tracks n).isSome
      · simp only [hc, if_true]
        exact atMostOne_updateTrack s n _
          (by intro t ht; simpa [Track.setVolume] using ht) ih.2
      · simp only [hc, if_false]
        exact ih.2
  | mark s n b _ ih =>
    refine ⟨?_, ?_⟩
    · unfold TrackManager.markTrackHasData
      by_cases hc : (s.tracks n).isSome
      · simp only [hc, if_true]
        exact domOk_updateTrack s n _ ih.1
      · simp only [hc, if_false]
        exact ih.1
    · unfold TrackManager.markTrackHasData
      by_cases hc : (s.tracks n).isSome
      · simp only [hc, if_true]
        exact atMostOne_updateTrack s n _
          (by intro t ht; simpa [Track.setHasData] using ht) ih.2
      · simp only [hc, if_false]
        exact ih.2
  | clear s n _ ih =>
    exact ⟨domOk_clearTrack s n ih.1, atMostOne_clearTrack s n ih.2⟩
  | reset s _ ih =>
    exact ⟨domOk_foldl_clear _ s ih.1, atMostOne_foldl_clear _ s ih.2⟩

/-- C7: in every reachable TrackManager state at most one track is armed,
and arming any valid track 1..8 clears every other armed flag, leaves
exactly the requested track armed, records it in `armed_track`, and
re-establishes the invariant. -/
theorem c7_armed_exclusivity (s : TrackManager) (h : TrackManager.Reachable s)
    (n : ℕ) (h1 : 1 ≤ n) (h8 : n ≤ 8) :
    s.AtMostOneArmed ∧
    (s.armTrack n).trackArmed n = true ∧
    (∀ m, m ≠ n → (s.armTrack n).trackArmed m = false) ∧
    (s.armTrack n).armed_track = some n ∧
    (s.armTrack n).AtMostOneArmed := by
  obtain ⟨hdom, hone⟩ := reachable_invariant s h
  have hn : (s.tracks n).isSome := (hdom n).mpr ⟨h1, h8⟩
  obtain ⟨t0, ht0⟩ := Option.isSome_iff_exists.mp hn
  refine ⟨hone, ?_, ?_, ?_, atMostOne_armTrack s n⟩
  · unfold TrackManager.trackArmed TrackManager.armTrack
    simp [hn, ht0, Track.disarm, Track.arm]
  · intro m hm
    unfold TrackManager.trackArmed TrackManager.armTrack
    simp only [hn, if_true]
    rw [if_neg hm]
    cases hcm : s.tracks m with
    | none => simp
    | some tm2 => simp [Track.disarm]
  · unfold TrackManager.armTrack
    simp [hn]

/-- Witness for C7: arming track 3 of the freshly initialised manager. -/
theorem c7_armed_exclusivity_witness :
    TrackManager.init.AtMostOneArmed ∧
    (TrackManager.init.armTrack 3).trackArmed 3 = true ∧
    (∀ m, m ≠ 3 → (TrackManager.init.armTrack 3).trackArmed m = false) ∧
    (TrackManager.init.armTrack 3).armed_track = some 3 ∧
    (TrackManager.init.armTrack 3).AtMostOneArmed :=
  c7_armed_exclusivity TrackManager.init TrackManager.Reachable.init 3
    (by decide) (by decide)

/-- C8 counterexample: arming with the invalid track number 0 does not
leave the state unchanged — it disarms the previously armed track 1
(`arm_track` disarms every track before checking validity), so invalid-index
arming is not a no-op. -/
theorem c8_invalid_index_counterexample :
    ¬ (1 ≤ 0 ∧ 0 ≤ 8) ∧
    (TrackManager.init.armTrack 1).trackArmed 1 = true ∧
    ((TrackManager.init.armTrack 1).armTrack 0).trackArmed 1 = false := by
  refine ⟨by decide, by decide, by decide⟩

/-- C8 amended: with an invalid track number (so its key is absent from the
dict, as in every reachable state), toggling mute, setting the manager's
track volume, marking data and clearing are exact no-ops; no operation
raises, but `arm_track` still disarms every track while leaving
`armed_track` unchanged, and the engine's `set_track_fx` /
`set_track_volume` silently create entries under the invalid index
(leaving every other key unchanged). -/
theorem c8_invalid_index_behavior (s : TrackManager) (e : EngineSettings)
    (n : ℕ) (v : ℚ) (b : Bool) (fx : String)
    (hn : ¬ (1 ≤ n ∧ n ≤ 8)) (htn : s.tracks n = none) :
    s.toggleTrackMute n = s ∧
    s.setTrackVolume n v = s ∧
    s.markTrackHasData n b = s ∧
    s.clearTrack n = s ∧
    (s.armTrack n).tracks = (fun i => (s.tracks i).map Track.disarm) ∧
    (s.armTrack n).armed_track = s.armed_track ∧
    (e.setTrackFx n fx).track_fx n = some fx ∧
    (∀ m, m ≠ n → (e.setTrackFx n fx).track_fx m = e.track_fx m) ∧
    (e.setTrackVolume n v).track_volumes n = some (max 0 (min 1 v)) ∧
    (∀ m, m ≠ n → (e.setTrackVolume n v).track_volumes m = e.track_volumes m) := by
  have hsome : ¬ (s.tracks n).isSome = true := by simp [htn]
  refine ⟨?_, ?_, ?_, ?_, ?_, ?_, ?_, ?_, ?_, ?_⟩
  · simp [TrackManager.toggleTrackMute, hsome]
  · simp [TrackManager.setTrackVolume, hsome]
  · simp [TrackManager.markTrackHasData, hsome]
  · simp [TrackManager.clearTrack, hsome]
  · simp [TrackManager.armTrack, hsome]
  · simp [TrackManager.armTrack, hsome]
  · simp [EngineSettings.setTrackFx]
  · intro m hm; simp [EngineSettings.setTrackFx, hm]
  · simp [EngineSettings.setTrackVolume]
  · intro m hm; simp [EngineSettings.setTrackVolume, hm]

/-- Witness for C8's amended statement at track number 0 on fresh states. -/
theorem c8_invalid_index_behavior_witness :
    TrackManager.init.toggleTrackMute 0 = TrackManager.init ∧
    TrackManager.init.setTrackVolume 0 (1 / 2) = TrackManager.init ∧
    TrackManager.init.markTrackHasData 0 true = TrackManager.init ∧
    TrackManager.init.clearTrack 0 = TrackManager.init ∧
    (TrackManager.init.armTrack 0).tracks
      = (fun i => (TrackManager.init.tracks i).map Track.disarm) ∧
    (TrackManager.init.armTrack 0).armed_track = TrackManager.init.armed_track ∧
    ((EngineSettings.init.setTrackFx 0 "studio").track_fx 0 = some "studio") ∧
    (∀ m, m ≠ 0 → (EngineSettings.init.setTrackFx 0 "studio").track_fx m
      = EngineSettings.init.track_fx m) ∧
    ((EngineSettings.init.setTrackVolume 0 (1 / 2)).track_volumes 0
      = some (max 0 (min 1 (1 / 2)))) ∧
    (∀ m, m ≠ 0 → (EngineSettings.init.setTrackVolume 0 (1 / 2)).track_volumes m
      = EngineSettings.init.track_volumes m) :=
  c8_invalid_index_behavior TrackManager.init EngineSettings.init 0 (1 / 2) true
    "studio" (by decide) rfl

/-- C9: saving the per-track configuration and applying the loaded record to
a manager/engine pair holding the track reproduces the mute flag, volume,
name, FX type and engine track volume exactly, for volumes within [0,1] and
any of the four FX types. -/
theorem c9_project_round_trip (tm tm2 : TrackManager) (e e2 : EngineSettings)
    (hasData : ℕ → Bool) (n : ℕ) (t : Track)
    (h1 : 1 ≤ n) (h8 : n ≤ 8)
    (hsrc : tm.tracks n = some t)
    (htgt : (tm2.tracks n).isSome)
    (hv0 : 0 ≤ t.volume) (hv1 : t.volume ≤ 1)
    (he0 : 0 ≤ e.getTrackVolume n) (he1 : e.getTrackVolume n ≤ 1)
    (hfx : e.getTrackFx n ∈ (["none", "compressor", "studio", "wide_hall"] : List String)) :
    ∃ t2, (applyProjectTracks (saveProjectTracks tm e hasData) tm2 e2).1.tracks n
        = some t2 ∧
      t2.is_muted = t.is_muted ∧ t2.volume = t.volume ∧ t2.name = t.name ∧
      (applyProjectTracks (saveProjectTracks tm e hasData) tm2 e2).2.getTrackFx n
        = e.getTrackFx n ∧
      (applyProjectTracks (saveProjectTracks tm e hasData) tm2 e2).2.getTrackVolume n
        = e.getTrackVolume n := by
  obtain ⟨t0, ht0⟩ := Option.isSome_iff_exists.mp htgt
  have hsaved : saveProjectTracks tm e hasData n =
      some ⟨hasData n, t.is_muted, t.volume, t.name, e.getTrackFx n,
            e.getTrackVolume n⟩ := by
    simp [saveProjectTracks, h1, h8, hsrc]
  have hclampt : max 0 (min 1 t.volume) = t.volume := by
    rw [min_eq_right hv1, max_eq_right hv0]
  have hclampe : max 0 (min 1 (e.getTrackVolume n)) = e.getTrackVolume n := by
    rw [min_eq_right he1, max_eq_right he0]
  refine ⟨{ t0 with
            is_muted := t.is_muted
            volume := max 0 (min 1 t.volume)
            name := t.name }, ?_, rfl, hclampt, rfl, ?_, ?_⟩
  · simp [applyProjectTracks, ht0, hsaved]
  · simp [applyProjectTracks, EngineSettings.getTrackFx, ht0, hsaved]
  · simp [applyProjectTracks, EngineSettings.getTrackVolume, ht0, hsaved]
    exact hclampe

/-- Witness for C9 on fresh manager and engine states at track 1. -/
theorem c9_project_round_trip_witness :
    ∃ t2, (applyProjectTracks
        (saveProjectTracks TrackManager.init EngineSettings.init fun _ => false)
        TrackManager.init EngineSettings.init).1.tracks 1 = some t2 ∧
      t2.is_muted = (Track.init 1).is_muted ∧
      t2.volume = (Track.init 1).volume ∧
      t2.name = (Track.init 1).name ∧
      (applyProjectTracks
        (saveProjectTracks TrackManager.init EngineSettings.init fun _ => false)
        TrackManager.init EngineSettings.init).2.getTrackFx 1
        = EngineSettings.init.getTrackFx 1 ∧
      (applyProjectTracks
        (saveProjectTracks TrackManager.init EngineSettings.init fun _ => false)
        TrackManager.init EngineSettings.init).2.getTrackVolume 1
        = EngineSettings.init.getTrackVolume 1 :=
  c9_project_round_trip TrackManager.init TrackManager.init EngineSettings.init
    EngineSettings.init (fun _ => false) 1 (Track.init 1) (by decide) (by decide)
    rfl rfl (by norm_num [Track.init]) (by norm_num [Track.init])
    (by norm_num [EngineSettings.init, EngineSettings.getTrackVolume])
    (by norm_num [EngineSettings.init, EngineSettings.getTrackVolume])
    (by simp [EngineSettings.init, EngineSettings.getTrackFx])

end Clifs
